import Mathlib

/-!
Shallow embedding of the answer-aggregation and feedback-decision engine
of the problem-builder repository (files `problem_builder/mixins.py` and
`problem_builder/tasks.py`), together with theorems settling the
specification claims about it.  All definitions come first, the theorems
follow.

Conventions used throughout:
* Python exceptions are modelled with `Except String`; the string is the
  exception class or message raised by the source.
* XBlock usage ids are modelled as `Nat` (already normalized: the
  `_normalize_id` helper of the source strips branch/version qualifiers
  so ids compare stably; all ids in the model are the normalized ones).
* Python dictionaries written by `d[k] = v` in insertion order are
  modelled by association lists with an update-or-append operation
  (`dinsert`) or by prepending (`buildNamesByType`), and dictionaries
  only read through `d.get(k, default)` by `List.lookup`-style searches.
-/

namespace ProblemBuilder

/-! Feedback Decision Engine, `MentoringBlock._get_standard_results`.

Modelled from the spec: the body of `MentoringBlock._get_standard_results`
lives in `problem_builder/mentoring.py`, which is not part of the sources
here; only its unit test
(`test_correctly_decides_to_show_or_hide_feedback_message`) is.  Per spec
section 4.4, `show_message` is true iff `student_results` is non-empty
AND (the `pb_hide_feedback_if_attempts_remain` policy flag is false OR
`max_attempts_reached` is true). -/

/-- Modelled from the spec: the `show_message` component of
`MentoringBlock._get_standard_results` (the method itself is in
`problem_builder/mentoring.py`, absent from the given sources).
`student_results` is the list of per-question graded results. -/
def show_message (student_results : List String)
    (hide_feedback_if_attempts_remain : Bool) (max_attempts_reached : Bool) : Bool :=
  !student_results.isEmpty && (!hide_feedback_if_attempts_remain || max_attempts_reached)

/-! Step Registry, `EnumerableChildMixin` in `mixins.py`.

Here `step_number` is `list(self.siblings).index(id) + 1`, where the
`list.index` method of Python returns the first index of the element and
raises `ValueError` when the element is absent.  `lonely_child` first
checks membership of the normalized id of the step in `self.siblings`
and raises `ValueError` on absence, then returns
`len(self.siblings) == 1`.  For a question, `siblings` is the parent
block list `step_ids`. -/

/-- Model of the `list.index` method of Python: index of the first
occurrence, or a `ValueError` when the element does not occur. -/
def listIndex (sid : Nat) : List Nat → Except String Nat
  | [] => .error "ValueError"
  | x :: rest =>
    if x = sid then .ok 0
    else (listIndex sid rest).map (· + 1)

/-- Model of `EnumerableChildMixin.step_number`: 1-based index of the
normalized usage id of the step within the step-id list of its parent. -/
def step_number (siblings : List Nat) (sid : Nat) : Except String Nat :=
  (listIndex sid siblings).map (· + 1)

/-- Model of `EnumerableChildMixin.lonely_child`: raises a `ValueError`
(message elided) when the normalized id of the step is missing from the
step list of its parent, else tells whether the step is the only step. -/
def lonely_child (siblings : List Nat) (sid : Nat) : Except String Bool :=
  if sid ∈ siblings then .ok (siblings.length = 1)
  else .error "ValueError: parent should contain child"

/-- Value of `QuestionMixin.CAPTION` (the capability caption of a step). -/
def QUESTION_CAPTION : String := "Question"

/-- Model of `EnumerableChildMixin.display_name_with_default`: the
author-provided title when non-empty, otherwise "{caption} {number}", or
just the caption for a lonely child.  The i18n hook `self._` is the
identity in this model (translation is out of scope).  As in the source,
`lonely_child` is consulted before `step_number`, so both paths raise on
an inconsistent tree. -/
def display_name_with_default (caption : String) (display_name : String)
    (siblings : List Nat) (sid : Nat) : Except String String :=
  if display_name ≠ "" then .ok display_name
  else do
    let lonely ← lonely_child siblings sid
    if !lonely then
      let n ← step_number siblings sid
      .ok (caption ++ " " ++ toString n)
    else
      .ok caption

/-! Message Resolver, `MessageParentMixin.get_message_content` in
`mixins.py`.

The children of the parent are scanned in order; children that are not
`MentoringMessageBlock`s (`child_isinstance` false) are skipped, as are
message children of a different type; the first message child of the
requested type has its content returned, passed through the runtime hook
`replace_jump_to_id_urls` when that attribute exists (`getattr`
returning `None` means no hook).  When the loop finds nothing:
`'<p>{default}</p>'` if `or_default`, else the implicit `None` of
Python.  The static `MentoringMessageBlock.MESSAGE_TYPES` default table
lives in `problem_builder/message.py` (not among the sources) and is
abstracted as the `defaults` argument. -/

/-- One child of a message parent: whether `child_isinstance(self,
child_id, MentoringMessageBlock)` holds, and the `type` and `content`
fields of the resolved block. -/
structure MessageChild where
  isMessage : Bool
  type : String
  content : String

/-- Model of `MessageParentMixin.get_message_content`. -/
def get_message_content (hook : Option (String → String)) (defaults : String → String)
    (children : List MessageChild) (message_type : String) (or_default : Bool) :
    Option String :=
  match children with
  | [] =>
    if or_default then some ("<p>" ++ defaults message_type ++ "</p>") else none
  | c :: rest =>
    if c.isMessage then
      if c.type = message_type then
        some ((hook.getD id) c.content)
      else get_message_content hook defaults rest message_type or_default
    else get_message_content hook defaults rest message_type or_default

/-! Tree Walker, `scan_for_blocks` in `tasks.py`.

A `CourseTree` node carries its usage id, its `scope_ids.block_type`,
and its ordered children; a child slot holds `none` when
`block.runtime.get_block(child_id)` raises `ItemNotFoundError` (a broken
child reference) and `some subtree` otherwise.  A node whose
`has_children` is false is one with an empty child list.

The scan appends a block whose type is among the requested block types
and otherwise recurses into its children, skipping children whose
resolution fails (`except ItemNotFoundError: pass`).  The variant
`scan_for_blocks_exc` keeps the resolution failure visible as an
`Except` error exactly where the source wraps `get_block` in a
try/except, so the claim that no exception escapes the scan is a
provable statement rather than an artifact of totality. -/

/-- A node of the course content tree (`none` children are unresolvable
child ids). -/
inductive CourseTree where
  | node (id : Nat) (blockType : String) (children : List (Option CourseTree)) : CourseTree

/-- The own (normalized) usage id of the node. -/
def CourseTree.topId : CourseTree → Nat
  | .node i _ _ => i

/-- The `scope_ids.block_type` of the node. -/
def CourseTree.topType : CourseTree → String
  | .node _ t _ => t

mutual
/-- Model of `scan_for_blocks` of `export_data`: collect blocks whose
type matches, without descending into them; recurse into the children of
non-matching blocks, skipping unresolvable children. -/
def scan_for_blocks (blockTypes : List String) : CourseTree → List CourseTree
  | .node i t cs =>
    if t ∈ blockTypes then [.node i t cs]
    else scanChildren blockTypes cs

/-- The `for child_id in block.children` loop of `scan_for_blocks`:
failures of `runtime.get_block` (`none`) are passed over. -/
def scanChildren (blockTypes : List String) : List (Option CourseTree) → List CourseTree
  | [] => []
  | none :: rest => scanChildren blockTypes rest
  | some c :: rest => scan_for_blocks blockTypes c ++ scanChildren blockTypes rest
end

mutual
/-- Model of `scan_for_blocks` with exceptions explicit: resolving a
`none` child raises `ItemNotFoundError`, which the loop catches
(`pass`); any other error would propagate. -/
def scan_for_blocks_exc (blockTypes : List String) :
    CourseTree → Except String (List CourseTree)
  | .node i t cs =>
    if t ∈ blockTypes then .ok [.node i t cs]
    else scanChildren_exc blockTypes cs

/-- Child loop of `scan_for_blocks_exc`: the `ItemNotFoundError` from a
broken child resolution is caught, while an error escaping the recursive
call would abort the walk. -/
def scanChildren_exc (blockTypes : List String) :
    List (Option CourseTree) → Except String (List CourseTree)
  | [] => .ok []
  | none :: rest => scanChildren_exc blockTypes rest
  | some c :: rest => do
    let collected ← scan_for_blocks_exc blockTypes c
    let others ← scanChildren_exc blockTypes rest
    .ok (collected ++ others)
end

mutual
/-- Remove every unresolvable child slot from the tree (the fully
repaired view of the content tree). -/
def prune : CourseTree → CourseTree
  | .node i t cs => .node i t (pruneChildren cs)

/-- Child-list part of `prune`. -/
def pruneChildren : List (Option CourseTree) → List (Option CourseTree)
  | [] => []
  | none :: rest => pruneChildren rest
  | some c :: rest => some (prune c) :: pruneChildren rest
end

mutual
/-- All (normalized) ids of the resolvable nodes of the tree, pre-order. -/
def allIds : CourseTree → List Nat
  | .node i _ cs => i :: childIds cs

/-- Child-list part of `allIds`. -/
def childIds : List (Option CourseTree) → List Nat
  | [] => []
  | none :: rest => childIds rest
  | some c :: rest => allIds c ++ childIds rest
end

/-- Ids of the strict descendants of a node. -/
def CourseTree.descIds : CourseTree → List Nat
  | .node _ _ cs => childIds cs

/-- Concatenated id lists of a list of trees. -/
def idsOfAll : List CourseTree → List Nat
  | [] => []
  | b :: rest => allIds b ++ idsOfAll rest

/-! Ancestor context, `_get_context` in `tasks.py`.

The while loop visits the block itself and then each ancestor up to the
root, assigning `block_names_by_type[block_type] = display_name` at
every node; a later (higher) node of the same type therefore overwrites
an earlier one.  The visited chain is modelled as the list of
`(block_type, display_name_with_default)` pairs in visiting order, block
first, root last.  The Python dict with assignment-overwrites is
modelled by prepending each assignment, so that the first hit of a
lookup is the most recent assignment. -/

/-- The `block_names_by_type` dict after the walk of `_get_context`:
each visited pair is prepended, so `List.lookup` finds the latest
assignment. -/
def buildNamesByType (chain : List (String × String)) : List (String × String) :=
  chain.foldl (fun m p => (p.1, p.2) :: m) []

/-- Model of `_get_context`: the ("Section", "Subsection", "Unit")
display names, read from the dict with the empty string as default. -/
def get_context (chain : List (String × String)) : String × String × String :=
  let names := buildNamesByType chain
  (((names.lookup "chapter").getD ""),
   ((names.lookup "sequential").getD ""),
   ((names.lookup "vertical").getD ""))

/-- The reading of `_get_context` that claim C7 asserts (spec wording):
for each type tag, the display title of the nearest node of that type
along the chain from the block to the root, empty string when absent. -/
def nearestAncestorContext (chain : List (String × String)) : String × String × String :=
  (((chain.lookup "chapter").getD ""),
   ((chain.lookup "sequential").getD ""),
   ((chain.lookup "vertical").getD ""))

/-! CSV Export Job, `export_data` and `_extract_data` in `tasks.py`.

The job resolves the source block (raising a `ValueError` with message
"Could not find the specified Block ID." — not a structured result —
when the id cannot be resolved), optionally ascends to the course root,
scans for matching blocks, and builds the row table: the fixed header
row first, then the rows `_extract_data` produces per block.  The
returned mapping always carries `error: None`; `display_data` is `[]`
when only the header exists and otherwise `rows[1:1001]`.  The ascent to
the root and the per-block extraction are abstracted as function
arguments (`groot`, `extract`); wall-clock timing fields and the report
store write are outside the model.

For each block, `_extract_data` resolves the username and answer of each
submission and keeps a row exactly when
`match_string.lower() in answer.lower()` holds — a pure post-fetch,
case-insensitive substring filter. -/

/-- The fixed CSV header row. -/
def EXPORT_HEADER : List String :=
  ["Section", "Subsection", "Unit", "Type", "Question", "Answer", "Username"]

/-- What `export_data` returns (timing fields omitted). -/
structure ExportResult where
  error : Option String
  report_filename : String
  display_data : List (List String)

/-- Append the `_extract_data` results of each collected block in order
(the `rows += results` loop). -/
def concatRows (extract : CourseTree → List (List String)) :
    List CourseTree → List (List String)
  | [] => []
  | b :: rest => extract b ++ concatRows extract rest

/-- Model of `export_data`: `src?` is the resolution of
`source_block_id_str` (`none` when the modulestore query finds nothing),
`groot` the ascend-to-root walk, `extract` the per-block `_extract_data`
call.  Returns the stored row table alongside the result mapping of the
task, or the `ValueError` the source raises on an unresolvable source
id. -/
def export_data (src? : Option CourseTree) (groot : CourseTree → CourseTree)
    (block_types : List String) (extract : CourseTree → List (List String))
    (filename : String) : Except String (List (List String) × ExportResult) :=
  match src? with
  | none => .error "Could not find the specified Block ID."
  | some src =>
    let root := groot src
    let bts := if block_types.isEmpty
      then ["MCQBlock", "RatingBlock", "AnswerBlock"] else block_types
    let blocks := scan_for_blocks bts root
    let rows := EXPORT_HEADER :: concatRows extract blocks
    .ok (rows,
      { error := none
        report_filename := filename
        display_data := if rows.length == 1 then [] else (rows.drop 1).take 1000 })

/-- One stored submission record (the `student_id` key may be absent in
the single-student mode). -/
structure Submission where
  student_id : Option String
  answer : String

/-- Model of `_get_username`: `submission.get('student_id', user_id)`
passed to the identity resolver (`user_by_anonymous_id(...).username`,
abstracted as `usernameOf`). -/
def get_username (usernameOf : Option String → String) (user_id : Option String)
    (s : Submission) : String :=
  usernameOf (match s.student_id with
    | some sid => some sid
    | none => user_id)

/-- Model of `_get_answer`: when the block exposes choice children
(`value`, `content` pairs; `none` models the `AttributeError` of a block
without children), the first choice whose stored value equals the raw
answer substitutes its content; otherwise the raw answer is kept. -/
def get_answer (choices : Option (List (String × String))) (raw : String) : String :=
  match choices with
  | none => raw
  | some cs =>
    match cs.find? (fun c => c.1 == raw) with
    | some c => c.2
    | none => raw

/-- Model of `str.lower()` of Python (character-wise, as for the ASCII
answers at stake). -/
def toLowerStr (s : String) : List Char := s.data.map Char.toLower

/-- Whether the needle starts the haystack. -/
def leadOf : List Char → List Char → Bool
  | [], _ => true
  | _ :: _, [] => false
  | a :: as, b :: bs => a == b && leadOf as bs

/-- Model of `needle in haystack` of Python on strings: contiguous
substring test. -/
def substrOf (needle : List Char) : List Char → Bool
  | [] => needle.isEmpty
  | b :: bs => leadOf needle (b :: bs) || substrOf needle bs

/-- Model of `match_string.lower() in answer.lower()`. -/
def matchesFilter (match_string answer : String) : Bool :=
  substrOf (toLowerStr match_string) (toLowerStr answer)

/-- Model of `_extract_data`: one row per fetched submission whose
resolved answer passes the filter; row layout section, subsection, unit,
type, question, answer, username. -/
def extract_data (ctx : String × String × String) (block_type block_question : String)
    (choices : Option (List (String × String))) (usernameOf : Option String → String)
    (user_id : Option String) (submissions : List Submission)
    (match_string : String) : List (List String) :=
  submissions.filterMap fun s =>
    let username := get_username usernameOf user_id s
    let answer := get_answer choices s.answer
    if matchesFilter match_string answer then
      some [ctx.1, ctx.2.1, ctx.2.2, block_type, block_question, answer, username]
    else none

/-! Student-State Projector, `StudentViewUserStateMixin` in `mixins.py`.

The method `build_user_state_data` iterates the declared fields of the
node (a dict keyed by field name, so names are unique) and inserts
`name -> transform(value)` into the result dict for every field whose
scope is in `INCLUDE_SCOPES` and whose name is in `USER_STATE_FIELDS`,
the transform defaulting to the identity.  When the node has children it
resolves each child and, for those exposing `build_user_state_data`
(`none` models an unresolvable or non-projectable child), stores the
projection of the child in a components dict keyed by the stringified
child id, finally assigned under the reserved `NESTED_BLOCKS_KEY`.
Result dicts are modelled as ordered association lists; the assignment
`result[k] = v` is `dinsert` (update-in-place or append). -/

/-- A JSON-able projected value. -/
inductive UVal where
  | str (v : String) : UVal
  | obj (entries : List (String × UVal)) : UVal

/-- An XBlock field persistence scope. -/
inductive FieldScope where
  | content
  | settings
  | user_state
  | user_info
  | preferences
  | user_state_summary

/-- Test for `field.scope in self.INCLUDE_SCOPES`, where `INCLUDE_SCOPES`
is `(Scope.user_state, Scope.user_info, Scope.preferences)`. -/
def FieldScope.included : FieldScope → Bool
  | .user_state => true
  | .user_info => true
  | .preferences => true
  | _ => false

/-- One declared field: its name, scope, and current value
(`field.read_from(self)`). -/
structure UField where
  name : String
  scope : FieldScope
  value : UVal

/-- A node as the projector sees it: declared fields, the
`USER_STATE_FIELDS` allow-list of the node type, the registered
`transforms()` table of the node type, `has_children`, and the children
(stringified id, and `none` when `runtime.get_block` fails or the child
has no `build_user_state_data`). -/
inductive UNode where
  | mk (fields : List UField) (userStateFields : List String)
      (transforms : List (String × (UVal → UVal)))
      (hasChildren : Bool) (children : List (String × Option UNode)) : UNode

/-- Value of `NESTED_BLOCKS_KEY`. -/
def NESTED_BLOCKS_KEY : String := "components"

/-- The Python dict assignment `m[k] = v` on an insertion-ordered dict:
replace in place when the key exists, else append. -/
def dinsert (m : List (String × UVal)) (k : String) (v : UVal) :
    List (String × UVal) :=
  if m.any (fun p => p.1 == k) then
    m.map (fun p => if p.1 == k then (k, v) else p)
  else m ++ [(k, v)]

/-- Model of `transforms.get(field.name, lambda value: value)`. -/
def transformFor (tf : List (String × (UVal → UVal))) (n : String) : UVal → UVal :=
  match tf.find? (fun p => p.1 == n) with
  | some p => p.2
  | none => fun v => v

mutual
/-- Model of `StudentViewUserStateMixin.build_user_state_data`. -/
def build_user_state_data : UNode → List (String × UVal)
  | .mk fields usf tf hc children =>
    let base := fields.foldl
      (fun acc f =>
        if f.scope.included && usf.contains f.name then
          dinsert acc f.name (transformFor tf f.name f.value)
        else acc) []
    if hc then
      dinsert base NESTED_BLOCKS_KEY (.obj (buildComponents children))
    else base

/-- The components dict: child loop of `build_user_state_data`; children
resolving to `none` are omitted.  (The child usage ids keying the dict
are distinct, so the dict is exactly this ordered association list.) -/
def buildComponents : List (String × Option UNode) → List (String × UVal)
  | [] => []
  | (_, none) :: rest => buildComponents rest
  | (cid, some c) :: rest =>
    (cid, .obj (build_user_state_data c)) :: buildComponents rest
end

/-! Helper lemmas about `listIndex` and `Except`. -/

theorem listIndex_ok_of_mem {sid : Nat} {l : List Nat} (h : sid ∈ l) :
    ∃ i, listIndex sid l = .ok i := by
  induction l with
  | nil => cases h
  | cons x rest ih =>
    by_cases hx : x = sid
    · exact ⟨0, by simp [listIndex, hx]⟩
    · have hmem : sid ∈ rest := by
        cases h with
        | head => exact absurd rfl hx
        | tail _ h => exact h
      obtain ⟨i, hi⟩ := ih hmem
      exact ⟨i + 1, by simp [listIndex, hx, hi, Except.map]⟩

theorem listIndex_error_of_not_mem {sid : Nat} {l : List Nat} (h : sid ∉ l) :
    listIndex sid l = .error "ValueError" := by
  induction l with
  | nil => rfl
  | cons x rest ih =>
    have hx : x ≠ sid := fun hxe => h (hxe ▸ List.mem_cons_self x rest)
    have hrest : sid ∉ rest := fun hm => h (List.mem_cons_of_mem x hm)
    simp [listIndex, hx, ih hrest, Except.map]

/-- On a duplicate-free list, `listIndex` recovers the position of each
element. -/
theorem listIndex_get {l : List Nat} (hnd : l.Nodup) (i : Fin l.length) :
    listIndex (l.get i) l = .ok i.val := by
  induction l with
  | nil => exact absurd i.isLt (by simp)
  | cons x rest ih =>
    rcases i with ⟨iv, hlt⟩
    cases iv with
    | zero => simp [listIndex]
    | succ n =>
      have hn : n < rest.length := Nat.lt_of_succ_lt_succ hlt
      have hget : (x :: rest).get ⟨n + 1, hlt⟩ = rest.get ⟨n, hn⟩ := rfl
      have hx : x ≠ rest.get ⟨n, hn⟩ := by
        intro hxe
        exact (List.nodup_cons.mp hnd).1 (hxe ▸ rest.get_mem n hn)
      have ihr : listIndex (rest.get ⟨n, hn⟩) rest = .ok n :=
        ih (List.nodup_cons.mp hnd).2 ⟨n, hn⟩
      show listIndex ((x :: rest).get ⟨n + 1, hlt⟩) (x :: rest) = .ok (n + 1)
      rw [hget]
      simp only [List.get_eq_getElem] at hx ihr ⊢
      simp [listIndex, hx, ihr, Except.map]

theorem exbind_ok {α β : Type} (a : α) (f : α → Except String β) :
    (Except.ok a >>= f) = f a := rfl

theorem exbind_error {α β : Type} (e : String) (f : α → Except String β) :
    ((Except.error e : Except String α) >>= f) = .error e := rfl

/-! Claim C1 — feedback decision. -/

/-- C1: `show_message` is true iff `student_results` is non-empty AND
(the hide-feedback-if-attempts-remain policy flag is false OR the
max-attempts-reached flag is true); in particular it is false on empty
`student_results` for every combination of the two flags. -/
theorem show_message_decision (sr : List String) (hide reached : Bool) :
    (show_message sr hide reached = true ↔
      sr ≠ [] ∧ (hide = false ∨ reached = true))
    ∧ (∀ h m : Bool, show_message [] h m = false) := by
  constructor
  · cases hide <;> cases reached <;>
      simp [show_message, List.isEmpty_iff]
  · intro h m
    cases h <;> cases m <;> simp [show_message]

/-! Claim C3 — `step_number` is a positional bijection; absent steps
fail. -/

/-- C3: over a parent whose step list has `N` (distinct) step ids,
`step_number` sends the `i`-th step to `i + 1`, injectively, and its
values are exactly `{1..N}`; a step id absent from the list of its
parent makes both `step_number` and `lonely_child` fail with the
consistency `ValueError` instead of returning a value. -/
theorem step_number_bijection (sibs : List Nat) (hnd : sibs.Nodup) :
    (∀ i : Fin sibs.length, step_number sibs (sibs.get i) = .ok (i.val + 1))
    ∧ (∀ i j : Fin sibs.length,
        step_number sibs (sibs.get i) = step_number sibs (sibs.get j) → i = j)
    ∧ (∀ n : Nat,
        (∃ i : Fin sibs.length, step_number sibs (sibs.get i) = .ok n) ↔
          1 ≤ n ∧ n ≤ sibs.length)
    ∧ (∀ sid : Nat, sid ∉ sibs →
        step_number sibs sid = .error "ValueError"
        ∧ lonely_child sibs sid = .error "ValueError: parent should contain child") := by
  have hidx : ∀ i : Fin sibs.length, step_number sibs (sibs.get i) = .ok (i.val + 1) := by
    intro i
    have h := listIndex_get hnd i
    simp only [List.get_eq_getElem] at h
    simp [step_number, h, Except.map]
  refine ⟨hidx, ?_, ?_, ?_⟩
  · intro i j hij
    rw [hidx i, hidx j] at hij
    have : i.val = j.val := by
      have := Except.ok.inj hij
      omega
    exact Fin.ext this
  · intro n
    constructor
    · rintro ⟨i, hi⟩
      rw [hidx i] at hi
      have : i.val + 1 = n := Except.ok.inj hi
      have := i.isLt
      omega
    · rintro ⟨h1, h2⟩
      refine ⟨⟨n - 1, by omega⟩, ?_⟩
      rw [hidx ⟨n - 1, by omega⟩]
      congr 1
      show n - 1 + 1 = n
      omega
  · intro sid hout
    refine ⟨?_, ?_⟩
    · simp [step_number, listIndex_error_of_not_mem hout, Except.map]
    · simp [lonely_child, hout]

/-- Witness for C3 at the concrete step list `[10, 20, 30]`. -/
theorem step_number_bijection_witness :
    step_number [10, 20, 30] 20 = .ok 2
    ∧ lonely_child [10, 20, 30] 99 = .error "ValueError: parent should contain child" := by
  have h := step_number_bijection [10, 20, 30] (by decide)
  exact ⟨h.1 ⟨1, by decide⟩, (h.2.2.2 99 (by decide)).2⟩

/-! Claim C4 — default display titles. -/

/-- C4: the displayed title is the author-provided title whenever it is
non-empty; a lonely step gets exactly the caption "Question" with no
trailing number as default title; with `N > 1` steps the `k`-th step
gets the default title "Question k". -/
theorem display_name_with_default_spec (sibs : List Nat) (sid : Nat) (dn : String) :
    (dn ≠ "" → ∀ caption : String,
        display_name_with_default caption dn sibs sid = .ok dn)
    ∧ (sibs = [sid] →
        display_name_with_default QUESTION_CAPTION "" sibs sid = .ok "Question")
    ∧ (sibs.Nodup → 1 < sibs.length → ∀ i : Fin sibs.length,
        display_name_with_default QUESTION_CAPTION "" sibs (sibs.get i) =
          .ok ("Question " ++ toString (i.val + 1))) := by
  refine ⟨?_, ?_, ?_⟩
  · intro hdn caption
    simp [display_name_with_default, hdn]
  · intro hsibs
    subst hsibs
    simp [display_name_with_default, lonely_child, QUESTION_CAPTION, exbind_ok]
  · intro hnd hlen i
    have hmem : sibs.get i ∈ sibs := sibs.get_mem i.val i.isLt
    have hlone : lonely_child sibs (sibs.get i) = .ok false := by
      simp [lonely_child, hmem]
      omega
    have hstep := listIndex_get hnd i
    simp only [List.get_eq_getElem] at hlone hstep
    simp [display_name_with_default, hlone, step_number, hstep,
      Except.map, QUESTION_CAPTION, exbind_ok]

/-- Witness for C4: authored title wins; lonely step titled "Question";
second of two steps titled "Question 2". -/
theorem display_name_with_default_spec_witness :
    display_name_with_default "Question" "My title" [7] 7 = .ok "My title"
    ∧ display_name_with_default QUESTION_CAPTION "" [5] 5 = .ok "Question"
    ∧ display_name_with_default QUESTION_CAPTION "" [4, 5] 5 = .ok "Question 2" := by
  refine ⟨?_, ?_, ?_⟩
  · exact (display_name_with_default_spec [7] 7 "My title").1 (by decide) "Question"
  · exact (display_name_with_default_spec [5] 5 "").2.1 rfl
  · have h := (display_name_with_default_spec [4, 5] 5 "").2.2 (by decide) (by decide) ⟨1, by decide⟩
    simpa using h

/-! Claim C5 — message resolution. -/

/-- C5: `get_message_content` returns the content of the first message
child (in child order) whose type equals the requested type, with the
link-rewrite hook of the host applied when present and the identity when
the hook is absent; with no matching child it returns the per-type
default wrapped in a paragraph marker when `or_default` is true and
nothing when it is false. -/
theorem get_message_content_spec (hook : Option (String → String))
    (defaults : String → String) (mt : String) :
    (∀ children : List MessageChild,
      (∀ c ∈ children, ¬(c.isMessage = true ∧ c.type = mt)) →
        get_message_content hook defaults children mt true =
          some ("<p>" ++ defaults mt ++ "</p>")
        ∧ get_message_content hook defaults children mt false = none)
    ∧ (∀ (l1 : List MessageChild) (c : MessageChild) (l2 : List MessageChild),
        (∀ c' ∈ l1, ¬(c'.isMessage = true ∧ c'.type = mt)) →
        c.isMessage = true → c.type = mt → ∀ d : Bool,
        get_message_content hook defaults (l1 ++ c :: l2) mt d =
          some ((hook.getD id) c.content)) := by
  constructor
  · intro children
    induction children with
    | nil => intro _; exact ⟨rfl, rfl⟩
    | cons c rest ih =>
      intro hnone
      have hc := hnone c (List.mem_cons_self c rest)
      have hrest := ih fun c' hm => hnone c' (List.mem_cons_of_mem c hm)
      by_cases him : c.isMessage = true
      · have hty : c.type ≠ mt := fun hty => hc ⟨him, hty⟩
        constructor <;> simp [get_message_content, him, hty, hrest.1, hrest.2]
      · constructor <;> simp [get_message_content, him, hrest.1, hrest.2]
  · intro l1 c l2 hpre him hty d
    induction l1 with
    | nil => simp [get_message_content, him, hty]
    | cons c' rest ih =>
      have hc' := hpre c' (List.mem_cons_self c' rest)
      have hrest := ih fun x hm => hpre x (List.mem_cons_of_mem c' hm)
      by_cases him' : c'.isMessage = true
      · have hty' : c'.type ≠ mt := fun h => hc' ⟨him', h⟩
        simp [get_message_content, him', hty', hrest]
      · simp [get_message_content, him', hrest]

/-- Witness for C5: a "test" content rewritten by an installed hook; the
paragraph-wrapped default and the empty result when no message child of
the requested type exists. -/
theorem get_message_content_spec_witness :
    get_message_content (some fun s => if s = "test" then "replaced-url" else s)
      (fun _ => "Great job!") [⟨false, "bogus", "x"⟩, ⟨true, "bogus", "test"⟩] "bogus" true =
        some "replaced-url"
    ∧ get_message_content none (fun _ => "Great job!") [] "completed" true =
        some "<p>Great job!</p>"
    ∧ get_message_content none (fun _ => "Great job!") [] "completed" false = none := by
  refine ⟨?_, ?_, ?_⟩
  · have h := (get_message_content_spec
        (some fun s => if s = "test" then "replaced-url" else s)
        (fun _ => "Great job!") "bogus").2
        [⟨false, "bogus", "x"⟩] ⟨true, "bogus", "test"⟩ []
        (by simp) rfl rfl true
    simpa using h
  · have h := ((get_message_content_spec none (fun _ => "Great job!") "completed").1
        [] (by simp)).1
    simpa using h
  · exact ((get_message_content_spec none (fun _ => "Great job!") "completed").1
        [] (by simp)).2

/-! Simultaneous induction for the course tree, and scan lemmas. -/

mutual
/-- Simultaneous induction over a course tree and a child list. -/
theorem courseTree_ind (P : CourseTree → Prop) (Q : List (Option CourseTree) → Prop)
    (hnode : ∀ i t cs, Q cs → P (.node i t cs))
    (hnil : Q [])
    (hnone : ∀ rest, Q rest → Q (none :: rest))
    (hsome : ∀ c rest, P c → Q rest → Q (some c :: rest)) :
    ∀ t : CourseTree, P t
  | .node i t cs => hnode i t cs (childList_ind P Q hnode hnil hnone hsome cs)

/-- Child-list part of `courseTree_ind`. -/
theorem childList_ind (P : CourseTree → Prop) (Q : List (Option CourseTree) → Prop)
    (hnode : ∀ i t cs, Q cs → P (.node i t cs))
    (hnil : Q [])
    (hnone : ∀ rest, Q rest → Q (none :: rest))
    (hsome : ∀ c rest, P c → Q rest → Q (some c :: rest)) :
    ∀ cs : List (Option CourseTree), Q cs
  | [] => hnil
  | none :: rest => hnone rest (childList_ind P Q hnode hnil hnone hsome rest)
  | some c :: rest =>
    hsome c rest (courseTree_ind P Q hnode hnil hnone hsome c)
      (childList_ind P Q hnode hnil hnone hsome rest)
end

theorem scan_exc_ok (bt : List String) : ∀ t : CourseTree,
    scan_for_blocks_exc bt t = .ok (scan_for_blocks bt t) := by
  refine courseTree_ind _
    (fun cs => scanChildren_exc bt cs = .ok (scanChildren bt cs)) ?_ ?_ ?_ ?_
  · intro i t cs hcs
    by_cases h : t ∈ bt <;>
      simp [scan_for_blocks_exc, scan_for_blocks, h, hcs]
  · rfl
  · intro rest hrest
    simp [scanChildren_exc, scanChildren, hrest]
  · intro c rest hc hrest
    simp [scanChildren_exc, scanChildren, hc, hrest, exbind_ok]

theorem scan_prune (bt : List String) : ∀ t : CourseTree,
    scan_for_blocks bt (prune t) = (scan_for_blocks bt t).map prune := by
  refine courseTree_ind _
    (fun cs => scanChildren bt (pruneChildren cs) = (scanChildren bt cs).map prune)
    ?_ ?_ ?_ ?_
  · intro i t cs hcs
    by_cases h : t ∈ bt <;>
      simp [prune, scan_for_blocks, h, hcs]
  · rfl
  · intro rest hrest
    simp [pruneChildren, scanChildren, hrest]
  · intro c rest hc hrest
    simp [pruneChildren, scanChildren, hc, hrest]

theorem idsOfAll_append (l1 l2 : List CourseTree) :
    idsOfAll (l1 ++ l2) = idsOfAll l1 ++ idsOfAll l2 := by
  induction l1 with
  | nil => simp [idsOfAll]
  | cons b rest ih => simp [idsOfAll, ih]

theorem allIds_eq_cons (b : CourseTree) : allIds b = b.topId :: b.descIds := by
  cases b with
  | node i t cs => rfl

theorem idsOfAll_scan_sublist (bt : List String) : ∀ t : CourseTree,
    (idsOfAll (scan_for_blocks bt t)).Sublist (allIds t) := by
  refine courseTree_ind _
    (fun cs => (idsOfAll (scanChildren bt cs)).Sublist (childIds cs)) ?_ ?_ ?_ ?_
  · intro i t cs hcs
    by_cases h : t ∈ bt
    · simp [scan_for_blocks, h, idsOfAll, allIds]
    · simp only [scan_for_blocks, h, if_false, allIds]
      exact hcs.trans (List.sublist_cons_self i (childIds cs))
  · simp [scanChildren, idsOfAll, childIds]
  · intro rest hrest
    simpa [scanChildren, childIds] using hrest
  · intro c rest hc hrest
    simpa [scanChildren, childIds, idsOfAll_append] using hc.append hrest

theorem mem_idsOfAll_of_mem {L : List CourseTree} {b : CourseTree} (hb : b ∈ L) :
    ∀ x ∈ allIds b, x ∈ idsOfAll L := by
  induction L with
  | nil => cases hb
  | cons b0 rest ih =>
    intro x hx
    cases hb with
    | head => exact List.mem_append_left _ hx
    | tail _ hb => exact List.mem_append_right _ (ih hb x hx)

theorem topId_mem_allIds (b : CourseTree) : b.topId ∈ allIds b := by
  rw [allIds_eq_cons]
  exact List.mem_cons_self _ _

theorem descIds_subset_allIds (b : CourseTree) : ∀ x ∈ b.descIds, x ∈ allIds b := by
  intro x hx
  rw [allIds_eq_cons]
  exact List.mem_cons_of_mem _ hx

theorem nodup_topIds {L : List CourseTree} (h : (idsOfAll L).Nodup) :
    (L.map CourseTree.topId).Nodup
    ∧ ∀ b ∈ L, ∀ b' ∈ L, b'.topId ∉ b.descIds := by
  induction L with
  | nil => exact ⟨List.nodup_nil, by intro b hb; cases hb⟩
  | cons b0 rest ih =>
    rw [idsOfAll, List.nodup_append] at h
    obtain ⟨h1, h2, hdisj⟩ := h
    obtain ⟨ihmap, ihdesc⟩ := ih h2
    constructor
    · rw [List.map_cons, List.nodup_cons]
      refine ⟨?_, ihmap⟩
      intro hmem
      obtain ⟨b', hb', heq⟩ := List.mem_map.mp hmem
      have hin : b0.topId ∈ idsOfAll rest :=
        heq ▸ mem_idsOfAll_of_mem hb' b'.topId (topId_mem_allIds b')
      exact hdisj (topId_mem_allIds b0) hin
    · intro b hb b' hb' hdesc
      cases hb with
      | head =>
        cases hb' with
        | head =>
          have : (allIds b0).Nodup := h1
          rw [allIds_eq_cons, List.nodup_cons] at this
          exact this.1 hdesc
        | tail _ hb' =>
          exact hdisj (descIds_subset_allIds b0 _ hdesc)
            (mem_idsOfAll_of_mem hb' b'.topId (topId_mem_allIds b'))
      | tail _ hb =>
        cases hb' with
        | head =>
          exact hdisj (topId_mem_allIds b0)
            (mem_idsOfAll_of_mem hb b0.topId (descIds_subset_allIds b _ hdesc))
        | tail _ hb' =>
          exact ihdesc b hb b' hb' hdesc

/-! Claim C6 — broken children are skipped, not fatal. -/

/-- C6: the scan raises no exception (the only exception the child
resolution can produce is caught), and scanning a tree with unresolvable
children returns exactly the matching blocks of the repaired tree in
which those branches are removed — so every matching block reachable
through the remaining children is still returned. -/
theorem scan_skips_broken_children (bt : List String) (t : CourseTree) :
    scan_for_blocks_exc bt t = .ok (scan_for_blocks bt t)
    ∧ scan_for_blocks bt (prune t) = (scan_for_blocks bt t).map prune :=
  ⟨scan_exc_ok bt t, scan_prune bt t⟩

/-! Claim C10 — the scan never descends into a match. -/

/-- C10: a block whose type matches is collected whole and its children
are never scanned; consequently (on a tree with distinct node ids) the
collected list has no duplicates and no collected block is a descendant
of another collected block. -/
theorem scan_never_descends_into_match (bt : List String) (t : CourseTree)
    (hnd : (allIds t).Nodup) :
    (∀ b : CourseTree, b.topType ∈ bt → scan_for_blocks bt b = [b])
    ∧ ((scan_for_blocks bt t).map CourseTree.topId).Nodup
    ∧ ∀ b ∈ scan_for_blocks bt t, ∀ b' ∈ scan_for_blocks bt t,
        b'.topId ∉ b.descIds := by
  have hnodup : (idsOfAll (scan_for_blocks bt t)).Nodup :=
    (idsOfAll_scan_sublist bt t).nodup hnd
  obtain ⟨hmap, hdesc⟩ := nodup_topIds hnodup
  refine ⟨?_, hmap, hdesc⟩
  intro b hbt
  cases b with
  | node i ty cs =>
    simp only [CourseTree.topType] at hbt
    simp [scan_for_blocks, hbt]

/-- Witness for C10 on a small course tree: the matching subtree is
returned whole (its matching child is not collected separately), and the
collected ids are duplicate-free. -/
theorem scan_never_descends_into_match_witness :
    scan_for_blocks ["pb-mcq"]
        (.node 2 "pb-mcq" [some (.node 3 "pb-mcq" [])]) =
      [.node 2 "pb-mcq" [some (.node 3 "pb-mcq" [])]]
    ∧ ((scan_for_blocks ["pb-mcq"]
        (.node 1 "course" [some (.node 2 "pb-mcq" [some (.node 3 "pb-mcq" [])]),
          none, some (.node 4 "vertical" [some (.node 5 "pb-rating" [])])])).map
        CourseTree.topId).Nodup := by
  have h := scan_never_descends_into_match ["pb-mcq"]
    (.node 1 "course" [some (.node 2 "pb-mcq" [some (.node 3 "pb-mcq" [])]),
      none, some (.node 4 "vertical" [some (.node 5 "pb-rating" [])])])
    (by decide)
  exact ⟨h.1 (.node 2 "pb-mcq" [some (.node 3 "pb-mcq" [])]) (by decide), h.2.1⟩

/-! Lemmas about the ancestor-context dict. -/

theorem foldl_prepend (chain : List (String × String)) :
    ∀ acc : List (String × String),
      chain.foldl (fun m p => (p.1, p.2) :: m) acc = chain.reverse ++ acc := by
  induction chain with
  | nil => intro acc; simp
  | cons p rest ih =>
    intro acc
    simp [List.foldl_cons, ih ((p.1, p.2) :: acc)]

theorem buildNamesByType_eq_reverse (chain : List (String × String)) :
    buildNamesByType chain = chain.reverse := by
  rw [buildNamesByType, foldl_prepend]
  simp

/-! Claim C7 — section/subsection/unit columns. -/

/-- C7 counterexample: on a parent chain holding two `vertical` nodes
("A" nearer the block, "B" nearer the root), `get_context` reports the
farther title "B" in the unit column, not the title "A" of the nearest
ancestor as the claim states: dict assignment lets higher ancestors
overwrite lower ones. -/
theorem get_context_counterexample :
    get_context [("pb-mcq", "Q"), ("vertical", "A"), ("vertical", "B"),
        ("sequential", "Sub"), ("chapter", "S"), ("course", "Root")] =
      ("S", "Sub", "B")
    ∧ nearestAncestorContext [("pb-mcq", "Q"), ("vertical", "A"), ("vertical", "B"),
        ("sequential", "Sub"), ("chapter", "S"), ("course", "Root")] =
      ("S", "Sub", "A")
    ∧ ("S", "Sub", "B") ≠ (("S", "Sub", "A") : String × String × String) := by
  refine ⟨rfl, rfl, ?_⟩
  decide

/-- C7 amended: the section, subsection and unit columns are the display
titles of the last-visited — i.e. outermost, farthest from the block —
node of type `chapter`, `sequential` and `vertical` respectively on the
chain from the block to the root, and the empty string (without error)
when no node of that type occurs. -/
theorem get_context_amended (chain : List (String × String)) :
    get_context chain =
      (((chain.reverse.lookup "chapter").getD ""),
       ((chain.reverse.lookup "sequential").getD ""),
       ((chain.reverse.lookup "vertical").getD "")) := by
  simp [get_context, buildNamesByType_eq_reverse]

/-! Lemmas showing the substring filter is really the substring
relation. -/

theorem leadOf_iff (n : List Char) : ∀ h : List Char,
    leadOf n h = true ↔ ∃ r, h = n ++ r := by
  induction n with
  | nil =>
    intro h
    simp [leadOf]
  | cons a as ih =>
    intro h
    cases h with
    | nil =>
      simp [leadOf]
    | cons b bs =>
      rw [leadOf]
      constructor
      · intro hl
        rw [Bool.and_eq_true] at hl
        obtain ⟨hab, hlead⟩ := hl
        obtain ⟨r, hr⟩ := (ih bs).mp hlead
        exact ⟨r, by simp [hr, (beq_iff_eq.mp hab).symm]⟩
      · rintro ⟨r, hr⟩
        obtain ⟨hb, hbs⟩ := List.cons.inj (by simpa using hr)
        rw [Bool.and_eq_true]
        exact ⟨beq_iff_eq.mpr hb.symm, (ih bs).mpr ⟨r, hbs⟩⟩

theorem substrOf_iff (n : List Char) : ∀ h : List Char,
    substrOf n h = true ↔ ∃ l r, h = l ++ n ++ r := by
  intro h
  induction h with
  | nil =>
    rw [substrOf]
    constructor
    · intro he
      exact ⟨[], [], by simp [List.isEmpty_iff.mp he]⟩
    · rintro ⟨l, r, hr⟩
      have : l = [] ∧ n = [] ∧ r = [] := by
        constructor
        · exact List.append_eq_nil.mp (List.append_eq_nil.mp hr.symm).1 |>.1 ▸ rfl
        · constructor
          · exact (List.append_eq_nil.mp (List.append_eq_nil.mp hr.symm).1).2
          · exact (List.append_eq_nil.mp hr.symm).2
      simp [List.isEmpty_iff, this.2.1]
  | cons b bs ih =>
    rw [substrOf]
    constructor
    · intro hor
      rw [Bool.or_eq_true] at hor
      rcases hor with hl | hs
      · obtain ⟨r, hr⟩ := (leadOf_iff n (b :: bs)).mp hl
        exact ⟨[], r, by simpa using hr⟩
      · obtain ⟨l, r, hr⟩ := ih.mp hs
        exact ⟨b :: l, r, by simp [hr]⟩
    · rintro ⟨l, r, hr⟩
      rw [Bool.or_eq_true]
      cases l with
      | nil =>
        exact .inl ((leadOf_iff n (b :: bs)).mpr ⟨r, by simpa using hr⟩)
      | cons c l' =>
        obtain ⟨hb, hbs⟩ := List.cons.inj (by simpa using hr)
        exact .inr (ih.mpr ⟨l', r, by simp [hbs]⟩)

/-! Claim C2 — unresolvable source block id. -/

/-- C2 counterexample: when the source block identifier does not
resolve, `export_data` raises the `ValueError` to its caller — it does
not return a structured result carrying the failure in its `error` field
(the `error` entry of the returned mapping is `None` on the success path
only). -/
theorem export_data_raises_on_missing_source :
    export_data none (fun t => t) [] (fun _ => []) "pb-data-export.csv" =
      .error "Could not find the specified Block ID." := rfl

/-- C2 amended: on an unresolvable source block identifier,
`export_data` raises a `ValueError` with message "Could not find the
specified Block ID." past the task boundary; a structured result — whose
`error` field is always `None` — is returned only when the source
resolves. -/
theorem export_data_error_behaviour (src? : Option CourseTree)
    (groot : CourseTree → CourseTree) (bts : List String)
    (extract : CourseTree → List (List String)) (fn : String) :
    match src? with
    | none =>
      export_data src? groot bts extract fn =
        .error "Could not find the specified Block ID."
    | some _ => ∃ rows res,
        export_data src? groot bts extract fn = .ok (rows, res)
        ∧ res.error = none ∧ res.report_filename = fn := by
  cases src? with
  | none => rfl
  | some src => exact ⟨_, _, rfl, rfl, rfl⟩

/-! Claim C9 — post-fetch answer filter and fixed header. -/

/-- C9: `extract_data` emits a row for a fetched submission exactly when
the lowercased text filter is a (contiguous) substring of the lowercased
resolved answer, and the row table `export_data` produces always starts
with the fixed header row. -/
theorem extract_data_filter_and_header (ctx : String × String × String)
    (bt q : String) (ch : Option (List (String × String)))
    (un : Option String → String) (uid : Option String)
    (subs : List Submission) (ms : String) :
    extract_data ctx bt q ch un uid subs ms =
      ((subs.filter fun s => matchesFilter ms (get_answer ch s.answer)).map
        fun s => [ctx.1, ctx.2.1, ctx.2.2, bt, q, get_answer ch s.answer,
          get_username un uid s])
    ∧ (∀ needle hay : String, matchesFilter needle hay = true ↔
        ∃ l r, toLowerStr hay = l ++ toLowerStr needle ++ r)
    ∧ (∀ (src : CourseTree) (groot : CourseTree → CourseTree) (bts : List String)
        (extract : CourseTree → List (List String)) (fn : String),
        ∃ rest res, export_data (some src) groot bts extract fn =
          .ok (EXPORT_HEADER :: rest, res)) := by
  refine ⟨?_, ?_, ?_⟩
  · induction subs with
    | nil => rfl
    | cons s rest ih =>
      by_cases h : matchesFilter ms (get_answer ch s.answer) = true
      · simp [extract_data, List.filterMap_cons, List.filter_cons, h] at ih ⊢
        exact ih
      · simp [extract_data, List.filterMap_cons, List.filter_cons, h] at ih ⊢
        exact ih
  · intro needle hay
    exact substrOf_iff (toLowerStr needle) (toLowerStr hay)
  · intro src groot bts extract fn
    exact ⟨_, _, rfl⟩

/-! Lemmas about the projector. -/

theorem dinsert_of_not_mem {m : List (String × UVal)} {k : String} (v : UVal)
    (h : ∀ p ∈ m, p.1 ≠ k) : dinsert m k v = m ++ [(k, v)] := by
  have hany : m.any (fun p => p.1 == k) = false := by
    rw [List.any_eq_false]
    intro p hp
    simpa using h p hp
  simp [dinsert, hany]

/-- The field loop of `build_user_state_data`, run from any accumulator
whose keys avoid the upcoming field names, appends exactly the
transformed entries of the allowed fields. -/
theorem foldl_proj_eq (usf : List String) (tf : List (String × (UVal → UVal))) :
    ∀ (fields : List UField) (acc : List (String × UVal)),
      (fields.map UField.name).Nodup →
      (∀ f ∈ fields, ∀ p ∈ acc, p.1 ≠ f.name) →
      fields.foldl
        (fun acc f =>
          if f.scope.included && usf.contains f.name then
            dinsert acc f.name (transformFor tf f.name f.value)
          else acc) acc =
      acc ++ ((fields.filter fun f => f.scope.included && usf.contains f.name).map
        fun f => (f.name, transformFor tf f.name f.value)) := by
  intro fields
  induction fields with
  | nil =>
    intro acc _ _
    simp
  | cons f rest ih =>
    intro acc hnd hdis
    have hnd' : (rest.map UField.name).Nodup := (List.nodup_cons.mp hnd).2
    by_cases hc : (f.scope.included && usf.contains f.name) = true
    · have hins : dinsert acc f.name (transformFor tf f.name f.value) =
          acc ++ [(f.name, transformFor tf f.name f.value)] :=
        dinsert_of_not_mem _ (fun p hp => hdis f (List.mem_cons_self f rest) p hp)
      have hdis' : ∀ g ∈ rest, ∀ p ∈ acc ++ [(f.name, transformFor tf f.name f.value)],
          p.1 ≠ g.name := by
        intro g hg p hp
        rcases List.mem_append.mp hp with hpa | hpf
        · exact hdis g (List.mem_cons_of_mem f hg) p hpa
        · have hpe : p = (f.name, transformFor tf f.name f.value) := by simpa using hpf
          subst hpe
          intro he
          have he' : f.name = g.name := he
          refine (List.nodup_cons.mp hnd).1 ?_
          rw [he']
          exact List.mem_map_of_mem UField.name hg
      rw [List.foldl_cons, if_pos hc, hins, ih _ hnd' hdis']
      have hprop : f.scope.included = true ∧ f.name ∈ usf := by simpa using hc
      simp [List.filter_cons, hprop]
    · rw [List.foldl_cons, if_neg hc,
        ih _ hnd' (fun g hg p hp => hdis g (List.mem_cons_of_mem f hg) p hp)]
      have hprop : ¬(f.scope.included = true ∧ f.name ∈ usf) := by simpa using hc
      simp [List.filter_cons, hprop]

theorem buildComponents_eq (children : List (String × Option UNode)) :
    buildComponents children =
      children.filterMap fun p =>
        p.2.map fun c => (p.1, UVal.obj (build_user_state_data c)) := by
  induction children with
  | nil => rfl
  | cons p rest ih =>
    rcases p with ⟨cid, c?⟩
    cases c? with
    | none => simpa [buildComponents, List.filterMap_cons] using ih
    | some c => simpa [buildComponents, List.filterMap_cons] using ih

/-! Claim C8 — the student-state projection. -/

/-- C8: the projection of a node consists exactly of its declared fields
whose scope is user-state, user-info or preferences and whose name is in
the allow-list of the node type — each value passed through the
registered transform, identity by default — plus, when the node has
children, the nested mapping under the reserved key from stringified
child id to child projection in which unresolvable children are omitted
without error (so the nested mapping has exactly one entry per
resolvable child).  Hypotheses: field names are distinct (fields form a
dict keyed by name) and none of them uses the reserved key. -/
theorem build_user_state_data_spec (fields : List UField) (usf : List String)
    (tf : List (String × (UVal → UVal))) (hc : Bool)
    (children : List (String × Option UNode))
    (hnd : (fields.map UField.name).Nodup)
    (hres : NESTED_BLOCKS_KEY ∉ fields.map UField.name) :
    build_user_state_data (.mk fields usf tf hc children) =
      ((fields.filter fun f => f.scope.included && usf.contains f.name).map
        fun f => (f.name, transformFor tf f.name f.value))
      ++ (if hc then
            [(NESTED_BLOCKS_KEY,
              UVal.obj (children.filterMap fun p =>
                p.2.map fun c => (p.1, UVal.obj (build_user_state_data c))))]
          else [])
    ∧ (children.filterMap fun p =>
        p.2.map fun c => (p.1, UVal.obj (build_user_state_data c))).length =
      (children.filter fun p => p.2.isSome).length := by
  have hbase := foldl_proj_eq usf tf fields [] hnd (by intro f _ p hp; cases hp)
  constructor
  · have hdis : ∀ p ∈ ((fields.filter fun f =>
        f.scope.included && usf.contains f.name).map
          fun f => (f.name, transformFor tf f.name f.value)),
        p.1 ≠ NESTED_BLOCKS_KEY := by
      intro p hp
      obtain ⟨f, hf, hpf⟩ := List.mem_map.mp hp
      intro he
      have : f.name = NESTED_BLOCKS_KEY := by rw [← hpf] at he; exact he
      exact hres (this ▸ List.mem_map_of_mem UField.name (List.mem_of_mem_filter hf))
    cases hc with
    | false =>
      simp only [build_user_state_data, hbase]
      simp
    | true =>
      simp only [build_user_state_data, hbase, List.nil_append]
      rw [dinsert_of_not_mem _ hdis, buildComponents_eq]
      simp
  · induction children with
    | nil => rfl
    | cons p rest ih =>
      rcases p with ⟨cid, c?⟩
      cases c? with
      | none => simpa [List.filterMap_cons, List.filter_cons] using ih
      | some c => simpa [List.filterMap_cons, List.filter_cons] using ih

/-- Witness for C8: a node with an allowed transformed field, an allowed
untransformed field, an excluded content field, one resolvable and one
unresolvable child. -/
theorem build_user_state_data_spec_witness :
    build_user_state_data (.mk
      [⟨"student_results", .user_state, .str "graded"⟩,
       ⟨"display_name", .content, .str "Title"⟩,
       ⟨"num_attempts", .user_state, .str "2"⟩]
      ["student_results", "num_attempts"]
      [("student_results", fun _ => .str "stripped")]
      true
      [("child-1", some (.mk [] [] [] false [])), ("child-2", none)]) =
      [("student_results", .str "stripped"), ("num_attempts", .str "2"),
       ("components", .obj [("child-1", .obj [])])] := by
  have h := build_user_state_data_spec
    [⟨"student_results", .user_state, .str "graded"⟩,
     ⟨"display_name", .content, .str "Title"⟩,
     ⟨"num_attempts", .user_state, .str "2"⟩]
    ["student_results", "num_attempts"]
    [("student_results", fun _ => .str "stripped")]
    true
    [("child-1", some (.mk [] [] [] false [])), ("child-2", none)]
    (by decide) (by decide)
  rw [h.1]
  rfl

end ProblemBuilder
